import Mathlib

/-!
Verification of the cache-wrapper core of `cacheman/cachewrap.py`.

The Python class `CacheWrap` wraps an optional mapping (`contents`), carries a
set of dependent cache names, and exposes lifecycle operations
(`load`, `save`, `invalidate`, `delete_saved_content`, `invalidate_and_rebuild`,
`load_or_build`) that can cascade through a possibly cyclic dependency graph,
guarded by a seen-set of names.

The shallow embedding below models:
 - the mapping payload as an association list (`Contents`);
 - a wrapper as a record of its fields, with the seven pluggable callbacks as
   `Option`-valued functions (a `Bool` for the deleter, whose return value the
   source ignores);
 - the process registry as an association list from names to wrappers
   (`State`); registry lookup is modelled from the spec because the registry
   module (`cacher`/`registers`) is not part of the sources;
 - every cascading operation as a fuelled recursive function threading the
   seen-set (a list of names standing for the Python mutable set) and an
   event log that records callback invocations and node-local-action
   executions (`Ev.act`), so that visit counts and effects are observable.
-/

namespace Cacheman

/-- The mapping payload held by a wrapper, modelled as an association list
from string keys to values (a Python `dict`). -/
abbrev Contents := List (String × Nat)

/-- An argument to `add_dependent` / an entry of the `dependents` set: either a
plain string name or a wrapper-shaped value (identified here by its name,
which is all the source ever reads from it via `_convert_dependent_to_name`).
A `wrap` value is a distinct Python object, never equal to any string. -/
inductive DepArg
  | str (s : String)
  | wrap (n : String)
  deriving DecidableEq, Repr

/-- Which cascading operation's node-local action ran (used to tag `Ev.act`
marker events). `invalidate` delegates to `load`, so it has no tag of its
own. -/
inductive ActKind
  | loadA
  | saveA
  | deleteA
  | rebuildA
  | lobA
  deriving DecidableEq, Repr

/-- Observable events of a run: `act k n` marks one execution of the
node-local block of a cascading operation at the cache named `n`; the other
constructors record invocations of the pluggable callbacks; `saveEnter n`
records that the `save` method body ran on the wrapper named `n` (used to
observe the implicit save inside `_build`). -/
inductive Ev
  | act (k : ActKind) (n : String)
  | loaderCall (n : String)
  | saverCall (n : String)
  | builderCall (n : String)
  | deleterCall (n : String)
  | validatorCall (n : String)
  | preCall (n : String)
  | postCall (n : String)
  | saveEnter (n : String)
  deriving DecidableEq, Repr

/-- The fields of a `CacheWrap` instance (`__init__`, lines 14-30 of
`cachewrap.py`).  The seven callbacks are optional; the deleter's return value
is never used by the source, so it is modelled as a configured/not-configured
flag.  The saver may return any Python value, whose truthiness matters in
`save`; it is modelled as returning an optional mapping (`none` standing for
a falsy return such as `None`). -/
structure Wrapper where
  name : String
  contents : Option Contents
  dependents : List DepArg
  loader : Option (String → Option Contents)
  saver : Option (String → Option Contents → Option Contents)
  builder : Option (String → Contents)
  deleter : Bool
  pre_processor : Option (Option Contents → Option Contents)
  post_processor : Option (Contents → Contents)
  validator : Option (Contents → Bool)

/-- A wrapper with the given name and no contents, callbacks or dependents. -/
def mkW (n : String) : Wrapper :=
  { name := n, contents := none, dependents := [], loader := none,
    saver := none, builder := none, deleter := false, pre_processor := none,
    post_processor := none, validator := none }

/-- Modelled from the spec: the default in-memory empty-mapping constructor
(`dict_loader` from the `registers` module, which is not among the sources;
the spec calls it "a default in-memory empty-mapping constructor"). -/
def dict_loader : Contents := []

/-- Python truthiness of an optional mapping: `None` and the empty dict are
falsy, a non-empty dict is truthy. -/
def truthy : Option Contents → Bool
  | none => false
  | some l => !l.isEmpty

/-- `_pre_process` (lines 109-112): if a pre-processor is configured, the
contents are replaced by its result (the source reassigns `contents`);
otherwise they pass through unchanged.  Also returns the callback-invocation
events. -/
def preProcessVal (w : Wrapper) (c : Option Contents) : Option Contents × List Ev :=
  match w.pre_processor with
  | some p => (p c, [Ev.preCall w.name])
  | none => (c, [])

/-- `_post_process` (lines 114-117): if a post-processor is configured it is
invoked on the contents, but its return value is DISCARDED — the source reads
`self.post_processor(contents)` without assignment and then `return contents`.
So the returned value is always the input; only the invocation event differs. -/
def postProcessVal (w : Wrapper) (c : Contents) : Contents × List Ev :=
  match w.post_processor with
  | some _ => (c, [Ev.postCall w.name])
  | none => (c, [])

/-- The node-local part of `load` (lines 137-146): discard contents, then if
a loader is configured invoke it; a `None` result, or a configured validator
rejecting the result, leaves contents absent; otherwise the result goes
through `_post_process` and becomes the contents. -/
def loadW (w : Wrapper) : Wrapper × List Ev :=
  match w.loader with
  | none => ({ w with contents := none }, [])
  | some f =>
    let log := [Ev.loaderCall w.name]
    match f w.name with
    | none => ({ w with contents := none }, log)
    | some c =>
      match w.validator with
      | some v =>
        let log := log ++ [Ev.validatorCall w.name]
        if v c then
          let pp := postProcessVal w c
          ({ w with contents := some pp.1 }, log ++ pp.2)
        else ({ w with contents := none }, log)
      | none =>
        let pp := postProcessVal w c
        ({ w with contents := some pp.1 }, log ++ pp.2)

/-- The node-local part of `save` (lines 157-158): pre-process the current
contents, then return `(self.saver and self.saver(self.name, contents)) or
contents` — i.e. the saver's result if a saver is configured AND that result
is truthy, otherwise the pre-processed contents.  Does not modify the
wrapper. -/
def saveW (w : Wrapper) : Option Contents × List Ev :=
  let log := [Ev.saveEnter w.name]
  let pre := preProcessVal w w.contents
  let log := log ++ pre.2
  match w.saver with
  | none => (pre.1, log)
  | some s =>
    let r := s w.name pre.1
    let log := log ++ [Ev.saverCall w.name]
    (if truthy r then r else pre.1, log)

/-- `_build` (lines 119-126): contents become `_post_process(dict_loader())`
when no builder is configured, else `_post_process(builder(name))`; then the
implicit `self.save()` runs on the updated wrapper. -/
def buildW (w : Wrapper) : Wrapper × List Ev :=
  let raw : Contents × List Ev :=
    match w.builder with
    | none => (dict_loader, [])
    | some b => (b w.name, [Ev.builderCall w.name])
  let pp := postProcessVal w raw.1
  let w' := { w with contents := some pp.1 }
  let sv := saveW w'
  (w', raw.2 ++ pp.2 ++ sv.2)

/-- The node-local part of `delete_saved_content` (lines 175-176): invoke the
deleter with the cache's name when one is configured; never touch contents. -/
def deleteW (w : Wrapper) : List Ev :=
  if w.deleter then [Ev.deleterCall w.name] else []

/-- `_convert_dependent_to_name` (lines 106-107): a string is kept, a
wrapper-shaped value contributes its `name`. -/
def convertDependentToName : DepArg → String
  | .str s => s
  | .wrap n => n

/-- Python `set.add`: insert the element unless already present. -/
def pySetInsert (l : List DepArg) (d : DepArg) : List DepArg :=
  if d ∈ l then l else l ++ [d]

/-- `add_dependent` (lines 206-207): `self.dependents.add(dependent)` — the
RAW argument is added, with no name conversion. -/
def add_dependent (w : Wrapper) (d : DepArg) : Wrapper :=
  { w with dependents := pySetInsert w.dependents d }

/-- The `dependents` set built by `__init__` (line 21): each given value is
converted to its name first. -/
def initDependents (ds : List DepArg) : List DepArg :=
  ds.foldl (fun acc d => pySetInsert acc (.str (convertDependentToName d))) []

/-- The process registry: an association of cache names to wrappers
(`manager.cache_by_name`). -/
abbrev State := List (String × Wrapper)

/-- Modelled from the spec: the registry's lookup-by-name
(`manager.retrieve_cache`, from the `cacher` module, which is not among the
sources; the spec specifies `lookup(name) -> wrapper | absent`). -/
def retrieve_cache (st : State) (n : String) : Option Wrapper :=
  (st.find? (fun p => p.1 = n)).map (·.2)

/-- Replace the wrapper registered under `n` (object mutation seen through
the registry). -/
def updateW (st : State) (n : String) (f : Wrapper → Wrapper) : State :=
  st.map (fun p => if p.1 = n then (p.1, f p.2) else p)

/-- The dependent names of the wrapper registered under `n`. -/
def depsOf (st : State) (n : String) : List DepArg :=
  match retrieve_cache st n with
  | some w => w.dependents
  | none => []

/-- The names registered in the state. -/
def keysF (st : State) : Finset String :=
  (st.map Prod.fst).toFinset

/-- Node-local `load` acting through the registry: look the wrapper up,
run `loadW` on it and store the result, marking the action in the log. -/
def loadLocalS (st : State) (n : String) (log : List Ev) : State × List Ev :=
  match retrieve_cache st n with
  | none => (st, log)
  | some w =>
    let r := loadW w
    (updateW st n (fun _ => r.1), log ++ [Ev.act .loadA n] ++ r.2)

/-- Node-local `save` acting through the registry: `save` never modifies the
wrapper, only produces a return value and callback invocations. -/
def saveLocalS (st : State) (n : String) (log : List Ev) : State × List Ev :=
  match retrieve_cache st n with
  | none => (st, log)
  | some w => (st, log ++ [Ev.act .saveA n] ++ (saveW w).2)

/-- Node-local `delete_saved_content` acting through the registry. -/
def deleteLocalS (st : State) (n : String) (log : List Ev) : State × List Ev :=
  match retrieve_cache st n with
  | none => (st, log)
  | some w => (st, log ++ [Ev.act .deleteA n] ++ deleteW w)

/-- Node-local `_build` acting through the registry (no `Ev.act` marker of
its own: `_build` is not a cascading entry point). -/
def buildLocalS (st : State) (n : String) (log : List Ev) : State × List Ev :=
  match retrieve_cache st n with
  | none => (st, log)
  | some w =>
    let r := buildW w
    (updateW st n (fun _ => r.1), log ++ r.2)

/-- The node-local block of `invalidate_and_rebuild` (lines 183-185):
`self.invalidate(False)` — which is `load` with a fresh, discarded seen-set,
hence exactly the node-local load — then `self.delete_saved_content(False)`,
then `self._build()`. -/
def rebuildLocalS (st : State) (n : String) (log : List Ev) : State × List Ev :=
  let log := log ++ [Ev.act .rebuildA n]
  let r1 := loadLocalS st n log
  let r2 := deleteLocalS r1.1 n r1.2
  buildLocalS r2.1 n r2.2

/-- The node-local block of `load_or_build` (lines 200-204): `self.load()`
(non-cascading, fresh discarded seen-set, hence the node-local load); if the
resulting contents are absent, `self._build()`. -/
def lobLocalS (st : State) (n : String) (log : List Ev) : State × List Ev :=
  let log := log ++ [Ev.act .lobA n]
  let r1 := loadLocalS st n log
  match retrieve_cache r1.1 n with
  | none => r1
  | some w1 =>
    if w1.contents.isSome then r1
    else buildLocalS r1.1 n r1.2

/-- The dependent loop shared by every cascading operation:
`for dependent in self._retrieve_dependent_caches(seen_caches): dependent.OP(...)`
(lines 93-98 plus the per-operation loop).  The generator lazily skips a
dependent that is already in the (mutated) seen-set at yield time and a
dependent the registry cannot resolve; a wrapper-shaped entry (possible via
`add_dependent`) is a non-string registry key, which resolves to nothing and
is likewise skipped.  `rec` is the operation recursively applied. -/
def foldDeps
    (rec : State → String → List String → List Ev → Option (State × List String × List Ev)) :
    List DepArg → State → List String → List Ev → Option (State × List String × List Ev)
  | [], st, seen, log => some (st, seen, log)
  | d :: ds, st, seen, log =>
    match d with
    | .wrap _ => foldDeps rec ds st seen log
    | .str s =>
      if s ∈ seen then foldDeps rec ds st seen log
      else
        match retrieve_cache st s with
        | none => foldDeps rec ds st seen log
        | some _ =>
          match rec st s seen log with
          | none => none
          | some (st', seen', log') => foldDeps rec ds st' seen' log'

/-- `load` (lines 128-146): seen-set guard, add own name, recurse into
dependents when cascading, then the node-local load.  Fuelled recursion:
`none` means the fuel ran out (never happens with enough fuel, as proved
below). -/
def loadC : Nat → State → String → Bool → List String → List Ev →
    Option (State × List String × List Ev)
  | 0, _, _, _, _, _ => none
  | fuel + 1, st, name, casc, seen, log =>
    if name ∈ seen then some (st, seen, log)
    else
      let seen1 := name :: seen
      let step :=
        if casc then foldDeps (fun st' n s l => loadC fuel st' n casc s l) (depsOf st name) st seen1 log
        else some (st, seen1, log)
      match step with
      | none => none
      | some (st2, seen2, log2) =>
        let r := loadLocalS st2 name log2
        some (r.1, seen2, r.2)

/-- `save` (lines 148-158): same cascade shape with the node-local save. -/
def saveC : Nat → State → String → Bool → List String → List Ev →
    Option (State × List String × List Ev)
  | 0, _, _, _, _, _ => none
  | fuel + 1, st, name, casc, seen, log =>
    if name ∈ seen then some (st, seen, log)
    else
      let seen1 := name :: seen
      let step :=
        if casc then foldDeps (fun st' n s l => saveC fuel st' n casc s l) (depsOf st name) st seen1 log
        else some (st, seen1, log)
      match step with
      | none => none
      | some (st2, seen2, log2) =>
        let r := saveLocalS st2 name log2
        some (r.1, seen2, r.2)

/-- `invalidate` (lines 160-161): a pure delegation to `load`. -/
def invalidateC (fuel : Nat) (st : State) (name : String) (casc : Bool)
    (seen : List String) (log : List Ev) : Option (State × List String × List Ev) :=
  loadC fuel st name casc seen log

/-- `delete_saved_content` (lines 163-176): same cascade shape with the
node-local delete. -/
def deleteC : Nat → State → String → Bool → List String → List Ev →
    Option (State × List String × List Ev)
  | 0, _, _, _, _, _ => none
  | fuel + 1, st, name, casc, seen, log =>
    if name ∈ seen then some (st, seen, log)
    else
      let seen1 := name :: seen
      let step :=
        if casc then foldDeps (fun st' n s l => deleteC fuel st' n casc s l) (depsOf st name) st seen1 log
        else some (st, seen1, log)
      match step with
      | none => none
      | some (st2, seen2, log2) =>
        let r := deleteLocalS st2 name log2
        some (r.1, seen2, r.2)

/-- `invalidate_and_rebuild` (lines 178-189): seen-set guard, add own name,
then — unlike the other cascading operations — the node-local block runs
FIRST (invalidate, delete, build, lines 183-185) and the recursion into
dependents comes after (lines 187-189). -/
def rebuildC : Nat → State → String → Bool → List String → List Ev →
    Option (State × List String × List Ev)
  | 0, _, _, _, _, _ => none
  | fuel + 1, st, name, casc, seen, log =>
    if name ∈ seen then some (st, seen, log)
    else
      let seen1 := name :: seen
      let r := rebuildLocalS st name log
      if casc then
        foldDeps (fun st' n s l => rebuildC fuel st' n casc s l) (depsOf r.1 name) r.1 seen1 r.2
      else some (r.1, seen1, r.2)

/-- `load_or_build` (lines 191-204): same cascade shape (recurse first) with
the node-local load-or-build. -/
def lobC : Nat → State → String → Bool → List String → List Ev →
    Option (State × List String × List Ev)
  | 0, _, _, _, _, _ => none
  | fuel + 1, st, name, casc, seen, log =>
    if name ∈ seen then some (st, seen, log)
    else
      let seen1 := name :: seen
      let step :=
        if casc then foldDeps (fun st' n s l => lobC fuel st' n casc s l) (depsOf st name) st seen1 log
        else some (st, seen1, log)
      match step with
      | none => none
      | some (st2, seen2, log2) =>
        let r := lobLocalS st2 name log2
        some (r.1, seen2, r.2)

/-- A node-local action on the registry state. -/
abbrev Act := State → String → List Ev → State × List Ev

/-- The cascade shape as the spec states it (its section on the
dependency-graph cascade): 1. seen-set guard; 2. add own name; 3. if
cascading, recurse into each resolvable dependent, threading the seen-set;
4. perform the node-local action. -/
def specCascade (act : Act) : Nat → State → String → Bool → List String → List Ev →
    Option (State × List String × List Ev)
  | 0, _, _, _, _, _ => none
  | fuel + 1, st, name, casc, seen, log =>
    if name ∈ seen then some (st, seen, log)
    else
      let seen1 := name :: seen
      let step :=
        if casc then foldDeps (fun st' n s l => specCascade act fuel st' n casc s l) (depsOf st name) st seen1 log
        else some (st, seen1, log)
      match step with
      | none => none
      | some (st2, seen2, log2) =>
        let r := act st2 name log2
        some (r.1, seen2, r.2)

/-- The variant shape in which the node-local action runs BEFORE the
recursion into dependents (the shape `invalidate_and_rebuild` actually
has). -/
def actFirstCascade (act : Act) : Nat → State → String → Bool → List String → List Ev →
    Option (State × List String × List Ev)
  | 0, _, _, _, _, _ => none
  | fuel + 1, st, name, casc, seen, log =>
    if name ∈ seen then some (st, seen, log)
    else
      let seen1 := name :: seen
      let r := act st name log
      if casc then
        foldDeps (fun st' n s l => actFirstCascade act fuel st' n casc s l) (depsOf r.1 name) r.1 seen1 r.2
      else some (r.1, seen1, r.2)

/-- The six public cascading operations. -/
inductive OpKind
  | load
  | save
  | invalidate
  | delete
  | rebuild
  | lob
  deriving DecidableEq, Repr

/-- The marker tag of each operation's node-local action (`invalidate`
delegates to `load`). -/
def opMark : OpKind → ActKind
  | .load => .loadA
  | .invalidate => .loadA
  | .save => .saveA
  | .delete => .deleteA
  | .rebuild => .rebuildA
  | .lob => .lobA

/-- A top-level cascading call of operation `k` at the cache named `n`:
fresh seen-set and log, fuel bounded by the registry size. -/
def opTop (k : OpKind) (st : State) (n : String) :
    Option (State × List String × List Ev) :=
  let fuel := (keysF st).card + 1
  match k with
  | .load => loadC fuel st n true [] []
  | .save => saveC fuel st n true [] []
  | .invalidate => invalidateC fuel st n true [] []
  | .delete => deleteC fuel st n true [] []
  | .rebuild => rebuildC fuel st n true [] []
  | .lob => lobC fuel st n true [] []

/-- Extract the name from a marker event of the given kind. -/
def actName (k : ActKind) : Ev → Option String
  | Ev.act k' n => if k' = k then some n else none
  | _ => none

/-- The user-facing failure conditions of the wrapper (each raised as an
`AttributeError` / `KeyError` by the source; what matters here is which
condition arises and what its message holds). -/
inductive PyErr
  | contentsAbsent (cacheName : String)
  | keyError (k : String)
  | unknownAttribute (wrapCls : String) (contCls : String) (attr : String)
  deriving DecidableEq, Repr

/-- Wrap a string in the single-quote character, as Python's `'{}'` format
pattern renders an interpolated value. -/
def sq (s : String) : String :=
  (String.singleton (Char.ofNat 39)) ++ s ++ (String.singleton (Char.ofNat 39))

/-- The message of each condition, built exactly as the source formats it:
`"No cache contents defined for '{}'".format(self.name)` (line 57) and
`"'{}' and '{}' objects have no attribute '{}'".format(...)` (line 53). -/
def errMsg : PyErr → String
  | .contentsAbsent n => "No cache contents defined for " ++ sq n
  | .keyError k => k
  | .unknownAttribute a b c =>
      sq a ++ " and " ++ sq b ++ " objects have no attribute " ++ sq c

/-- Look a key up in the mapping payload. -/
def lookupA (c : Contents) (k : String) : Option Nat :=
  (c.find? (fun p => p.1 = k)).map (·.2)

/-- `__contains__` (lines 59-62): returns `False` when contents are absent,
otherwise delegates the membership test. -/
def containsW (w : Wrapper) (k : String) : Bool :=
  match w.contents with
  | none => false
  | some c => (lookupA c k).isSome

/-- `__getitem__` (lines 64-66): `_check_contents_present` (lines 55-57)
raises the contents-absent condition when contents are absent; otherwise
delegates (a missing key is the payload's own `KeyError`). -/
def getitemW (w : Wrapper) (k : String) : Except PyErr Nat :=
  match w.contents with
  | none => .error (.contentsAbsent w.name)
  | some c =>
    match lookupA c k with
    | none => .error (.keyError k)
    | some v => .ok v

/-- `__setitem__` (lines 68-70). -/
def setitemW (w : Wrapper) (k : String) (v : Nat) : Except PyErr Wrapper :=
  match w.contents with
  | none => .error (.contentsAbsent w.name)
  | some c =>
    let c' := if (lookupA c k).isSome
      then c.map (fun p => if p.1 = k then (p.1, v) else p)
      else c ++ [(k, v)]
    .ok { w with contents := some c' }

/-- `__delitem__` (lines 72-74). -/
def delitemW (w : Wrapper) (k : String) : Except PyErr Wrapper :=
  match w.contents with
  | none => .error (.contentsAbsent w.name)
  | some c =>
    match lookupA c k with
    | none => .error (.keyError k)
    | some _ => .ok { w with contents := some (c.filter (fun p => p.1 ≠ k)) }

/-- `__iter__` (lines 76-78): iteration over the payload's keys. -/
def iterW (w : Wrapper) : Except PyErr (List String) :=
  match w.contents with
  | none => .error (.contentsAbsent w.name)
  | some c => .ok (c.map Prod.fst)

/-- `__len__` (lines 80-82). -/
def lenW (w : Wrapper) : Except PyErr Nat :=
  match w.contents with
  | none => .error (.contentsAbsent w.name)
  | some c => .ok c.length

/-- The attribute names defined on the wrapper itself (the `CacheWrap` class
methods and the instance attributes set in `__init__`): standard attribute
lookup succeeds on these, so `__getattr__` is not reached. -/
def wrapperAttrNames : List String :=
  ["manager", "contents", "name", "dependents",
   "loader", "saver", "builder", "deleter", "pre_processor", "post_processor",
   "validator", "load", "save", "invalidate", "delete_saved_content",
   "invalidate_and_rebuild", "load_or_build", "add_dependent"]

/-- The class name of the payload object, as `self.contents.__class__.__name__`
renders it: `NoneType` for absent contents, `dict` for a mapping payload. -/
def contentsClsName : Option Contents → String
  | none => "NoneType"
  | some _ => "dict"

/-- The attribute names the payload object defines (a model of `dict`'s
methods for a present payload; absent contents — `None` — defines none of the
attributes a caller would fall through for). -/
def contentsAttrNames : Option Contents → List String
  | none => []
  | some _ => ["keys", "values", "items", "get", "pop", "update", "clear",
               "copy", "setdefault"]

/-- Attribute access on the wrapper (`__getattr__`, lines 43-53): an
attribute the wrapper defines resolves normally; otherwise the lookup falls
through to the payload; if neither defines it, the unknown-attribute
condition is raised with the wrapper's class name (`CacheWrap`), the
payload's class name and the attribute name. -/
def getattrW (w : Wrapper) (attr : String) : Except PyErr Unit :=
  if attr ∈ wrapperAttrNames then .ok ()
  else if attr ∈ contentsAttrNames w.contents then .ok ()
  else .error (.unknownAttribute "CacheWrap" (contentsClsName w.contents) attr)

/-- Does `s` occur as a contiguous substring of `hay`? -/
def strContains (hay s : String) : Bool :=
  hay.data.tails.any (fun t => s.data.isPrefixOf t)

/-- A wrapper as seen by the exception-level model of `load`: only the fields
the node-local load reads, with a loader that may FAIL (raise), returning
`Except` (the error value is the raised exception). -/
structure WrapperE where
  name : String
  contents : Option Contents
  loader : Option (String → Except String (Option Contents))
  validator : Option (Contents → Bool)
  post_processor : Option (Contents → Contents)

/-- The node-local part of `load` (lines 137-146) under exception semantics:
`self.contents = None` runs BEFORE the loader is invoked, so if the loader
raises, the exception propagates with the wrapper's contents left absent —
the previous contents are not restored.  Returns the wrapper's final
contents paired with the outcome (the returned contents, or the propagated
exception). -/
def loadWE (w : WrapperE) : Option Contents × Except String (Option Contents) :=
  match w.loader with
  | none => (none, .ok none)
  | some f =>
    match f w.name with
    | .error e => (none, .error e)
    | .ok none => (none, .ok none)
    | .ok (some c) =>
      match w.validator with
      | some v => if v c then (some c, .ok (some c)) else (none, .ok none)
      | none => (some c, .ok (some c))

/-- The raw value `_build` constructs before post-processing (lines 120-123):
the empty-mapping default without a builder, else the builder's result. -/
def builtValue (w : Wrapper) : Contents :=
  match w.builder with
  | none => dict_loader
  | some b => b w.name

/-- The configured validator (if any) accepts `c`. -/
def validatorAccepts (w : Wrapper) (c : Contents) : Prop :=
  ∀ v, w.validator = some v → v c = true

/-- A two-node registry with the edge A → B (B is a dependent of A). -/
def stC2 : State :=
  [("A", { mkW "A" with
    dependents := [DepArg.str "B"] }), ("B", mkW "B")]

/-- A one-node registry whose wrapper has a deleter and non-empty contents. -/
def stC8 : State :=
  [("A", { mkW "A" with
    deleter := true,
    contents := some [("x", 2)] })]

/-- A registry where A gained B through `add_dependent` applied to a
wrapper-shaped argument, and B is registered under its name. -/
def stC9 : State :=
  [("A", add_dependent (mkW "A") (DepArg.wrap "B")), ("B", mkW "B")]

/-- A post-processor whose return value differs from its input. -/
def c4post : Contents → Contents := fun _ => [("z", 9)]

/-- A wrapper whose loader yields {"k": 1} and whose post-processor would
yield {"z": 9}. -/
def wC4 : Wrapper :=
  { mkW "c4" with
    loader := some (fun _ => some [("k", 1)]),
    post_processor := some c4post }

/-- A wrapper with only a loader yielding {"k": 1}. -/
def wC4b : Wrapper :=
  { mkW "c4b" with
    loader := some (fun _ => some [("k", 1)]) }

/-- A saver that returns Python `None` (the common case of a procedure-style
saver). -/
def c5saver : String → Option Contents → Option Contents := fun _ _ => none

/-- A wrapper holding {"k": 1} whose saver returns a falsy value. -/
def wC5 : Wrapper :=
  { mkW "c5" with
    contents := some [("k", 1)],
    saver := some c5saver }

/-- A saver returning a truthy value. -/
def c5saverB : String → Option Contents → Option Contents := fun _ _ => some [("s", 7)]

/-- A wrapper holding {"k": 1} whose saver returns a truthy value. -/
def wC5b : Wrapper :=
  { mkW "c5b" with
    contents := some [("k", 1)],
    saver := some c5saverB }

/-- A wrapper named "alpha" holding a dict payload. -/
def wC7 : Wrapper :=
  { mkW "alpha" with
    contents := some [("k", 1)] }

/-- A loader that raises. -/
def c10loader : String → Except String (Option Contents) := fun _ => .error "io"

/-- An exception-level wrapper with prior contents and a failing loader. -/
def wC10 : WrapperE :=
  { name := "c10", contents := some [("old", 1)], loader := some c10loader,
    validator := none, post_processor := none }

/-! ### Helper lemmas: shape equalities -/

theorem foldDeps_congr
    (rec₁ rec₂ : State → String → List String → List Ev → Option (State × List String × List Ev))
    (h : ∀ st n seen log, rec₁ st n seen log = rec₂ st n seen log) :
    ∀ ds st seen log, foldDeps rec₁ ds st seen log = foldDeps rec₂ ds st seen log := by
  intro ds
  induction ds with
  | nil => intro st seen log; rfl
  | cons d ds ih =>
    intro st seen log
    cases d with
    | wrap n => exact ih st seen log
    | str s =>
      simp only [foldDeps]
      by_cases hs : s ∈ seen
      · simp only [hs, if_true]; exact ih st seen log
      · simp only [hs, if_false]
        cases retrieve_cache st s with
        | none => exact ih st seen log
        | some w =>
          rw [h st s seen log]
          cases rec₂ st s seen log with
          | none => rfl
          | some r => exact ih r.1 r.2.1 r.2.2

theorem loadC_eq_shape : ∀ fuel st name casc seen log,
    loadC fuel st name casc seen log = specCascade loadLocalS fuel st name casc seen log := by
  intro fuel
  induction fuel with
  | zero => intro st name casc seen log; rfl
  | succ fuel ih =>
    intro st name casc seen log
    simp only [loadC, specCascade]
    by_cases h : name ∈ seen
    · simp only [h, if_true]
    · simp only [h, if_false]
      rw [foldDeps_congr _ _ (fun st' n s l => ih st' n casc s l)]

theorem saveC_eq_shape : ∀ fuel st name casc seen log,
    saveC fuel st name casc seen log = specCascade saveLocalS fuel st name casc seen log := by
  intro fuel
  induction fuel with
  | zero => intro st name casc seen log; rfl
  | succ fuel ih =>
    intro st name casc seen log
    simp only [saveC, specCascade]
    by_cases h : name ∈ seen
    · simp only [h, if_true]
    · simp only [h, if_false]
      rw [foldDeps_congr _ _ (fun st' n s l => ih st' n casc s l)]

theorem deleteC_eq_shape : ∀ fuel st name casc seen log,
    deleteC fuel st name casc seen log = specCascade deleteLocalS fuel st name casc seen log := by
  intro fuel
  induction fuel with
  | zero => intro st name casc seen log; rfl
  | succ fuel ih =>
    intro st name casc seen log
    simp only [deleteC, specCascade]
    by_cases h : name ∈ seen
    · simp only [h, if_true]
    · simp only [h, if_false]
      rw [foldDeps_congr _ _ (fun st' n s l => ih st' n casc s l)]

theorem lobC_eq_shape : ∀ fuel st name casc seen log,
    lobC fuel st name casc seen log = specCascade lobLocalS fuel st name casc seen log := by
  intro fuel
  induction fuel with
  | zero => intro st name casc seen log; rfl
  | succ fuel ih =>
    intro st name casc seen log
    simp only [lobC, specCascade]
    by_cases h : name ∈ seen
    · simp only [h, if_true]
    · simp only [h, if_false]
      rw [foldDeps_congr _ _ (fun st' n s l => ih st' n casc s l)]

theorem rebuildC_eq_shape : ∀ fuel st name casc seen log,
    rebuildC fuel st name casc seen log = actFirstCascade rebuildLocalS fuel st name casc seen log := by
  intro fuel
  induction fuel with
  | zero => intro st name casc seen log; rfl
  | succ fuel ih =>
    intro st name casc seen log
    simp only [rebuildC, actFirstCascade]
    by_cases h : name ∈ seen
    · simp only [h, if_true]
    · simp only [h, if_false]
      rw [foldDeps_congr _ _ (fun st' n s l => ih st' n casc s l)]

/-! ### Helper lemmas: state and event invariants -/

/-- Membership-wise extension of seen-sets (the Python set only ever grows). -/
def SeenExt (l₁ l₂ : List String) : Prop := ∀ x, x ∈ l₁ → x ∈ l₂

theorem seenExt_refl (l : List String) : SeenExt l l := fun _ h => h

theorem seenExt_trans {a b c : List String} (h₁ : SeenExt a b) (h₂ : SeenExt b c) :
    SeenExt a c := fun x hx => h₂ x (h₁ x hx)

theorem seenExt_cons (n : String) (l : List String) : SeenExt l (n :: l) :=
  fun _ h => List.mem_cons_of_mem _ h

/-- The marker names added by a run segment: pairwise distinct, none of them
already seen at entry, all of them seen at exit. -/
def MarksOK (mk : Ev → Option String) (Δ : List Ev) (seen seen' : List String) : Prop :=
  (Δ.filterMap mk).Nodup ∧ ∀ x ∈ Δ.filterMap mk, x ∉ seen ∧ x ∈ seen'

theorem marksOK_nil (mk : Ev → Option String) (seen seen' : List String) :
    MarksOK mk [] seen seen' := ⟨List.nodup_nil, by simp⟩

theorem marksOK_append {mk : Ev → Option String} {Δ₁ Δ₂ : List Ev} {s₁ s₂ s₃ : List String}
    (h₁ : MarksOK mk Δ₁ s₁ s₂) (h₂ : MarksOK mk Δ₂ s₂ s₃)
    (e₁₂ : SeenExt s₁ s₂) (e₂₃ : SeenExt s₂ s₃) : MarksOK mk (Δ₁ ++ Δ₂) s₁ s₃ := by
  constructor
  · rw [List.filterMap_append, List.nodup_append]
    refine ⟨h₁.1, h₂.1, ?_⟩
    intro a ha hb
    exact (h₂.2 a hb).1 ((h₁.2 a ha).2)
  · rw [List.filterMap_append]
    intro x hx
    rcases List.mem_append.mp hx with h | h
    · exact ⟨(h₁.2 x h).1, e₂₃ x (h₁.2 x h).2⟩
    · exact ⟨fun hs => (h₂.2 x h).1 (e₁₂ x hs), (h₂.2 x h).2⟩

theorem updateW_keys (st : State) (n : String) (f : Wrapper → Wrapper) :
    (updateW st n f).map Prod.fst = st.map Prod.fst := by
  induction st with
  | nil => rfl
  | cons p st ih =>
    simp only [updateW, List.map_cons] at *
    by_cases h : p.1 = n
    · simp [h, ih]
    · simp [h, ih]

theorem keysF_updateW (st : State) (n : String) (f : Wrapper → Wrapper) :
    keysF (updateW st n f) = keysF st := by
  unfold keysF
  rw [updateW_keys]

theorem retrieve_mem_keys {st : State} {s : String} {w : Wrapper}
    (h : retrieve_cache st s = some w) : s ∈ keysF st := by
  unfold retrieve_cache at h
  cases hf : st.find? (fun p => p.1 = s) with
  | none => rw [hf] at h; cases h
  | some p =>
    have hp : p.1 = s := by
      have := List.find?_some hf
      simpa using this
    have hmem := List.mem_of_find?_eq_some hf
    unfold keysF
    rw [List.mem_toFinset]
    exact hp ▸ List.mem_map_of_mem Prod.fst hmem

theorem loadW_marks (w : Wrapper) (k : ActKind) :
    ((loadW w).2).filterMap (actName k) = [] := by
  rcases hl : w.loader with _ | f
  · simp [loadW, hl]
  · rcases hf : f w.name with _ | c
    · simp [loadW, hl, hf, actName]
    · rcases hv : w.validator with _ | v
      · rcases hp : w.post_processor with _ | p <;>
          simp [loadW, hl, hf, hv, postProcessVal, hp, actName]
      · by_cases hvc : v c
        · rcases hp : w.post_processor with _ | p <;>
            simp [loadW, hl, hf, hv, hvc, postProcessVal, hp, actName]
        · simp [loadW, hl, hf, hv, hvc, actName]

theorem saveW_marks (w : Wrapper) (k : ActKind) :
    ((saveW w).2).filterMap (actName k) = [] := by
  rcases hpre : w.pre_processor with _ | p <;> rcases hs : w.saver with _ | s <;>
    simp [saveW, preProcessVal, hpre, hs, actName]

theorem buildW_marks (w : Wrapper) (k : ActKind) :
    ((buildW w).2).filterMap (actName k) = [] := by
  rcases hb : w.builder with _ | b <;> rcases hp : w.post_processor with _ | p <;>
    simp [buildW, postProcessVal, hb, hp, actName, List.filterMap_append, saveW_marks]

theorem deleteW_marks (w : Wrapper) (k : ActKind) :
    (deleteW w).filterMap (actName k) = [] := by
  by_cases h : w.deleter <;> simp [deleteW, h, actName]

/-- What one node-local action appends to the log and does to the registry:
keys preserved, and the appended events contain at most one marker, which is
of the action's own kind and carries the node's name. -/
def LocalSpec (f : State → String → List Ev → State × List Ev) (k₀ : ActKind) : Prop :=
  ∀ st n log, ∃ δ, (f st n log).2 = log ++ δ ∧ keysF (f st n log).1 = keysF st ∧
    ∀ k, (δ.filterMap (actName k)).length ≤ 1 ∧
      ∀ x ∈ δ.filterMap (actName k), x = n ∧ k = k₀

theorem marks_cons_self {k k₀ : ActKind} {n : String} {ev : List Ev}
    (hev : ev.filterMap (actName k) = []) :
    ((Ev.act k₀ n :: ev).filterMap (actName k)).length ≤ 1 ∧
      ∀ x ∈ (Ev.act k₀ n :: ev).filterMap (actName k), x = n ∧ k = k₀ := by
  by_cases hk : k₀ = k
  · subst hk
    simp [List.filterMap_cons, actName, hev]
  · have : actName k (Ev.act k₀ n) = none := by simp [actName, hk]
    simp [List.filterMap_cons, this, hev]

theorem loadLocalS_spec : LocalSpec loadLocalS ActKind.loadA := by
  intro st n log
  cases hr : retrieve_cache st n with
  | none => exact ⟨[], by simp [loadLocalS, hr], by simp [loadLocalS, hr], by simp⟩
  | some w =>
    refine ⟨Ev.act .loadA n :: (loadW w).2, ?_, ?_, ?_⟩
    · simp [loadLocalS, hr]
    · simp [loadLocalS, hr, keysF_updateW]
    · intro k
      exact marks_cons_self (loadW_marks w k)

theorem saveLocalS_spec : LocalSpec saveLocalS ActKind.saveA := by
  intro st n log
  cases hr : retrieve_cache st n with
  | none => exact ⟨[], by simp [saveLocalS, hr], by simp [saveLocalS, hr], by simp⟩
  | some w =>
    refine ⟨Ev.act .saveA n :: (saveW w).2, ?_, ?_, ?_⟩
    · simp [saveLocalS, hr]
    · simp [saveLocalS, hr]
    · intro k
      exact marks_cons_self (saveW_marks w k)

theorem deleteLocalS_spec : LocalSpec deleteLocalS ActKind.deleteA := by
  intro st n log
  cases hr : retrieve_cache st n with
  | none => exact ⟨[], by simp [deleteLocalS, hr], by simp [deleteLocalS, hr], by simp⟩
  | some w =>
    refine ⟨Ev.act .deleteA n :: deleteW w, ?_, ?_, ?_⟩
    · simp [deleteLocalS, hr]
    · simp [deleteLocalS, hr]
    · intro k
      exact marks_cons_self (deleteW_marks w k)

theorem buildLocalS_marks (st : State) (n : String) (log : List Ev) :
    ∃ δ, (buildLocalS st n log).2 = log ++ δ ∧ keysF (buildLocalS st n log).1 = keysF st ∧
      ∀ k, δ.filterMap (actName k) = [] := by
  cases hr : retrieve_cache st n with
  | none => exact ⟨[], by simp [buildLocalS, hr], by simp [buildLocalS, hr], by simp⟩
  | some w =>
    refine ⟨(buildW w).2, ?_, ?_, buildW_marks w⟩
    · simp [buildLocalS, hr]
    · simp [buildLocalS, hr, keysF_updateW]

/-- The contract a node-local action must satisfy for the cascade-run lemma,
relative to one marker extractor `mk`: it appends to the log, preserves the
registry's key set, and its appended events carry at most one `mk`-marker,
named after the node. -/
def ActOK (act : Act) (mk : Ev → Option String) : Prop :=
  ∀ st n log, ∃ δ, (act st n log).2 = log ++ δ ∧ keysF (act st n log).1 = keysF st ∧
    (δ.filterMap mk).length ≤ 1 ∧ ∀ x ∈ δ.filterMap mk, x = n

theorem ActOK_of_local {f : State → String → List Ev → State × List Ev} {k₀ : ActKind}
    (h : LocalSpec f k₀) : ActOK f (actName k₀) := by
  intro st n log
  obtain ⟨δ, h1, h2, h3⟩ := h st n log
  exact ⟨δ, h1, h2, (h3 k₀).1, fun x hx => ((h3 k₀).2 x hx).1⟩

theorem marks_nil_of_ne {l : List String} {n : String} {k k₀ : ActKind}
    (hm : ∀ x ∈ l, x = n ∧ k = k₀) (hk : k ≠ k₀) : l = [] := by
  cases hl : l with
  | nil => rfl
  | cons a t => exact absurd (hm a (hl ▸ List.mem_cons_self a t)).2 hk

theorem actOK_rebuild : ActOK rebuildLocalS (actName .rebuildA) := by
  intro st n log
  set log0 := log ++ [Ev.act .rebuildA n] with hlog0
  obtain ⟨δ₁, h₁, hk₁, hm₁⟩ := loadLocalS_spec st n log0
  set r1 := loadLocalS st n log0 with hr1
  obtain ⟨δ₂, h₂, hk₂, hm₂⟩ := deleteLocalS_spec r1.1 n r1.2
  set r2 := deleteLocalS r1.1 n r1.2 with hr2
  obtain ⟨δ₃, h₃, hk₃, hm₃⟩ := buildLocalS_marks r2.1 n r2.2
  have hδ₁ : δ₁.filterMap (actName .rebuildA) = [] :=
    marks_nil_of_ne (fun x hx => ⟨((hm₁ .rebuildA).2 x hx).1, ((hm₁ .rebuildA).2 x hx).2⟩)
      (by intro h; cases h)
  have hδ₂ : δ₂.filterMap (actName .rebuildA) = [] :=
    marks_nil_of_ne (fun x hx => ⟨((hm₂ .rebuildA).2 x hx).1, ((hm₂ .rebuildA).2 x hx).2⟩)
      (by intro h; cases h)
  refine ⟨Ev.act .rebuildA n :: (δ₁ ++ δ₂ ++ δ₃), ?_, ?_, ?_, ?_⟩
  · show (buildLocalS r2.1 n r2.2).2 = _
    rw [h₃, h₂, h₁, hlog0]
    simp
  · show keysF (buildLocalS r2.1 n r2.2).1 = keysF st
    rw [hk₃, hk₂, hk₁]
  · simp [List.filterMap_cons, actName, List.filterMap_append, hδ₁, hδ₂, hm₃ .rebuildA]
  · simp [List.filterMap_cons, actName, List.filterMap_append, hδ₁, hδ₂, hm₃ .rebuildA]

theorem actOK_lob : ActOK lobLocalS (actName .lobA) := by
  intro st n log
  obtain ⟨δ₁, h₁, hk₁, hm₁⟩ := loadLocalS_spec st n (log ++ [Ev.act .lobA n])
  have hδ₁ : δ₁.filterMap (actName .lobA) = [] :=
    marks_nil_of_ne (fun x hx => (hm₁ .lobA).2 x hx) (by intro h; cases h)
  simp only [lobLocalS]
  cases hw : retrieve_cache (loadLocalS st n (log ++ [Ev.act .lobA n])).1 n with
  | none =>
    dsimp only
    refine ⟨Ev.act .lobA n :: δ₁, ?_, ?_, ?_, ?_⟩
    · rw [h₁]; simp
    · exact hk₁
    · simp [List.filterMap_cons, actName, hδ₁]
    · simp [List.filterMap_cons, actName, hδ₁]
  | some w1 =>
    dsimp only
    by_cases hc : w1.contents.isSome
    · rw [if_pos hc]
      refine ⟨Ev.act .lobA n :: δ₁, ?_, ?_, ?_, ?_⟩
      · rw [h₁]; simp
      · exact hk₁
      · simp [List.filterMap_cons, actName, hδ₁]
      · simp [List.filterMap_cons, actName, hδ₁]
    · rw [if_neg hc]
      obtain ⟨δ₃, h₃, hk₃, hm₃⟩ :=
        buildLocalS_marks (loadLocalS st n (log ++ [Ev.act .lobA n])).1 n
          (loadLocalS st n (log ++ [Ev.act .lobA n])).2
      refine ⟨Ev.act .lobA n :: (δ₁ ++ δ₃), ?_, ?_, ?_, ?_⟩
      · rw [h₃, h₁]; simp
      · rw [hk₃, hk₁]
      · simp [List.filterMap_cons, actName, List.filterMap_append, hδ₁, hm₃ .lobA]
      · simp [List.filterMap_cons, actName, List.filterMap_append, hδ₁, hm₃ .lobA]

theorem nodup_of_len_le_one {α : Type _} {l : List α} (h : l.length ≤ 1) : l.Nodup := by
  match l with
  | [] => exact List.nodup_nil
  | [a] => exact List.nodup_singleton a
  | a :: b :: t => simp at h

/-- Running the dependent loop: every recursive call lands on a registered,
unseen name, so the termination measure `|registered names not yet seen|`
strictly shrinks; keys are preserved, the seen-set only grows, and the added
markers stay disjoint from everything already seen. -/
theorem foldDeps_run (mk : Ev → Option String) (fuel : Nat) (keys0 : Finset String)
    (base : List String)
    (rec : State → String → List String → List Ev → Option (State × List String × List Ev))
    (hrec : ∀ st n seen log, keysF st = keys0 → SeenExt base seen → n ∈ keys0 → n ∉ seen →
        (keys0 \ insert n seen.toFinset).card < fuel →
        ∃ st' seen' log' Δ, rec st n seen log = some (st', seen', log') ∧
          keysF st' = keys0 ∧ log' = log ++ Δ ∧ SeenExt seen seen' ∧ n ∈ seen' ∧
          MarksOK mk Δ seen seen')
    (hbound : (keys0 \ base.toFinset).card ≤ fuel) :
    ∀ ds st seen log, keysF st = keys0 → SeenExt base seen →
      ∃ st' seen' log' Δ, foldDeps rec ds st seen log = some (st', seen', log') ∧
        keysF st' = keys0 ∧ log' = log ++ Δ ∧ SeenExt seen seen' ∧
        MarksOK mk Δ seen seen' := by
  intro ds
  induction ds with
  | nil =>
    intro st seen log hk hb
    exact ⟨st, seen, log, [], rfl, hk, (List.append_nil log).symm, seenExt_refl seen,
      marksOK_nil mk seen seen⟩
  | cons d ds ih =>
    intro st seen log hk hb
    cases d with
    | wrap m => exact ih st seen log hk hb
    | str s =>
      simp only [foldDeps]
      by_cases hs : s ∈ seen
      · rw [if_pos hs]
        exact ih st seen log hk hb
      · rw [if_neg hs]
        cases hr : retrieve_cache st s with
        | none => exact ih st seen log hk hb
        | some w =>
          have hsk : s ∈ keys0 := hk ▸ retrieve_mem_keys hr
          have hcard : (keys0 \ insert s seen.toFinset).card < fuel := by
            have hsub : keys0 \ insert s seen.toFinset ⊆ keys0 \ base.toFinset := by
              intro x hx
              rw [Finset.mem_sdiff] at hx ⊢
              refine ⟨hx.1, fun hxb => hx.2 ?_⟩
              rw [Finset.mem_insert]
              exact Or.inr (List.mem_toFinset.mpr (hb x (List.mem_toFinset.mp hxb)))
            have hsmem : s ∈ keys0 \ base.toFinset := by
              rw [Finset.mem_sdiff]
              exact ⟨hsk, fun hsb => hs (hb s (List.mem_toFinset.mp hsb))⟩
            have hsout : s ∉ keys0 \ insert s seen.toFinset := by
              rw [Finset.mem_sdiff, Finset.mem_insert]
              intro hcontra
              exact hcontra.2 (Or.inl rfl)
            have hss := (Finset.ssubset_iff_of_subset hsub).mpr ⟨s, hsmem, hsout⟩
            exact lt_of_lt_of_le (Finset.card_lt_card hss) hbound
          obtain ⟨st1, seen1, log1, Δ₁, hrec_eq, hk1, hlog1, hse1, hsn1, hm1⟩ :=
            hrec st s seen log hk hb hsk hs hcard
          rw [hrec_eq]
          obtain ⟨st', seen', log', Δ₂, hfold, hk', hlog', hse', hm'⟩ :=
            ih st1 seen1 log1 hk1 (seenExt_trans hb hse1)
          refine ⟨st', seen', log', Δ₁ ++ Δ₂, hfold, hk', ?_,
            seenExt_trans hse1 hse', marksOK_append hm1 hm' hse1 hse'⟩
          rw [hlog', hlog1, List.append_assoc]

/-- Main run lemma for the recurse-then-act cascade shape: with fuel above
the number of registered-but-unseen names, the run completes; keys are
preserved, the seen-set grows, the node itself ends seen, and the appended
markers are pairwise distinct and disjoint from the entry seen-set. -/
theorem cascade_run (act : Act) (mk : Ev → Option String) (hact : ActOK act mk) :
    ∀ fuel st name casc seen log,
      (keysF st \ insert name seen.toFinset).card < fuel →
      ∃ st' seen' log' Δ,
        specCascade act fuel st name casc seen log = some (st', seen', log') ∧
        keysF st' = keysF st ∧ log' = log ++ Δ ∧ SeenExt seen seen' ∧
        name ∈ seen' ∧ MarksOK mk Δ seen seen' := by
  intro fuel
  induction fuel with
  | zero => intro st name casc seen log h; exact absurd h (Nat.not_lt_zero _)
  | succ fuel ih =>
    intro st name casc seen log hcard
    simp only [specCascade]
    by_cases hn : name ∈ seen
    · rw [if_pos hn]
      exact ⟨st, seen, log, [], rfl, rfl, (List.append_nil log).symm, seenExt_refl _, hn,
        marksOK_nil mk seen seen⟩
    · rw [if_neg hn]
      cases casc with
      | false =>
        simp only [Bool.false_eq_true, if_false]
        obtain ⟨δ, hδlog, hδk, hδlen, hδmem⟩ := hact st name log
        refine ⟨(act st name log).1, name :: seen, (act st name log).2, δ, rfl, hδk, hδlog,
          seenExt_cons name seen, List.mem_cons_self name seen, ?_⟩
        refine ⟨nodup_of_len_le_one hδlen, fun x hx => ?_⟩
        rw [hδmem x hx]
        exact ⟨hn, List.mem_cons_self name seen⟩
      | true =>
        simp only [if_true]
        have hbound : (keysF st \ (name :: seen).toFinset).card ≤ fuel := by
          rw [List.toFinset_cons]
          exact Nat.lt_succ_iff.mp hcard
        obtain ⟨st2, seen2, log2, Δf, hfold, hk2, hlog2, hse2, hm2⟩ :=
          foldDeps_run mk fuel (keysF st) (name :: seen)
            (fun st' n s l => specCascade act fuel st' n true s l)
            (fun st' n s l hk hb hnk hns hc => by
              obtain ⟨a, b, c, Δ', h1, h2, h3, h4, h5, h6⟩ :=
                ih st' n true s l (by rw [hk]; exact hc)
              exact ⟨a, b, c, Δ', h1, h2.trans hk, h3, h4, h5, h6⟩)
            hbound (depsOf st name) st (name :: seen) log rfl (seenExt_refl _)
        rw [hfold]
        dsimp only
        obtain ⟨δ, hδlog, hδk, hδlen, hδmem⟩ := hact st2 name log2
        refine ⟨(act st2 name log2).1, seen2, (act st2 name log2).2, Δf ++ δ, rfl, ?_, ?_,
          seenExt_trans (seenExt_cons name seen) hse2,
          hse2 name (List.mem_cons_self name seen), ?_⟩
        · rw [hδk, hk2]
        · rw [hδlog, hlog2, List.append_assoc]
        · constructor
          · rw [List.filterMap_append, List.nodup_append]
            refine ⟨hm2.1, nodup_of_len_le_one hδlen, ?_⟩
            intro a ha hb
            exact (hm2.2 a ha).1 ((hδmem a hb) ▸ List.mem_cons_self name seen)
          · rw [List.filterMap_append]
            intro x hx
            rcases List.mem_append.mp hx with h | h
            · have hx2 := hm2.2 x h
              exact ⟨fun hxs => hx2.1 (List.mem_cons_of_mem _ hxs), hx2.2⟩
            · rw [hδmem x h]
              exact ⟨hn, hse2 name (List.mem_cons_self name seen)⟩

/-- Run lemma for the act-then-recurse cascade shape (the shape
`invalidate_and_rebuild` has), with the same conclusions. -/
theorem actFirst_run (act : Act) (mk : Ev → Option String) (hact : ActOK act mk) :
    ∀ fuel st name casc seen log,
      (keysF st \ insert name seen.toFinset).card < fuel →
      ∃ st' seen' log' Δ,
        actFirstCascade act fuel st name casc seen log = some (st', seen', log') ∧
        keysF st' = keysF st ∧ log' = log ++ Δ ∧ SeenExt seen seen' ∧
        name ∈ seen' ∧ MarksOK mk Δ seen seen' := by
  intro fuel
  induction fuel with
  | zero => intro st name casc seen log h; exact absurd h (Nat.not_lt_zero _)
  | succ fuel ih =>
    intro st name casc seen log hcard
    simp only [actFirstCascade]
    by_cases hn : name ∈ seen
    · rw [if_pos hn]
      exact ⟨st, seen, log, [], rfl, rfl, (List.append_nil log).symm, seenExt_refl _, hn,
        marksOK_nil mk seen seen⟩
    · rw [if_neg hn]
      obtain ⟨δ, hδlog, hδk, hδlen, hδmem⟩ := hact st name log
      have hmδ : MarksOK mk δ seen (name :: seen) := by
        refine ⟨nodup_of_len_le_one hδlen, fun x hx => ?_⟩
        rw [hδmem x hx]
        exact ⟨hn, List.mem_cons_self name seen⟩
      cases casc with
      | false =>
        simp only [Bool.false_eq_true, if_false]
        exact ⟨(act st name log).1, name :: seen, (act st name log).2, δ, rfl, hδk, hδlog,
          seenExt_cons name seen, List.mem_cons_self name seen, hmδ⟩
      | true =>
        simp only [if_true]
        have hbound : (keysF st \ (name :: seen).toFinset).card ≤ fuel := by
          rw [List.toFinset_cons]
          exact Nat.lt_succ_iff.mp hcard
        obtain ⟨st2, seen2, log2, Δf, hfold, hk2, hlog2, hse2, hm2⟩ :=
          foldDeps_run mk fuel (keysF st) (name :: seen)
            (fun st' n s l => actFirstCascade act fuel st' n true s l)
            (fun st' n s l hk hb hnk hns hc => by
              obtain ⟨a, b, c, Δ', h1, h2, h3, h4, h5, h6⟩ :=
                ih st' n true s l (by rw [hk]; exact hc)
              exact ⟨a, b, c, Δ', h1, h2.trans hk, h3, h4, h5, h6⟩)
            hbound (depsOf (act st name log).1 name) (act st name log).1
            (name :: seen) (act st name log).2 hδk (seenExt_refl _)
        rw [hfold]
        refine ⟨st2, seen2, log2, δ ++ Δf, rfl, hk2, ?_, ?_, ?_, ?_⟩
        · rw [hlog2, hδlog, List.append_assoc]
        · exact seenExt_trans (seenExt_cons name seen) hse2
        · exact hse2 name (List.mem_cons_self name seen)
        · exact marksOK_append hmδ hm2 (seenExt_cons name seen) hse2

/-- If the haystack's characters split as `a ++ s.data ++ b`, then `s` is
found as a substring. -/
theorem strContains_of_data {hay s : String} (a b : List Char)
    (he : hay.data = a ++ s.data ++ b) : strContains hay s = true := by
  unfold strContains
  apply List.any_eq_true.mpr
  refine ⟨s.data ++ b, ?_, ?_⟩
  · rw [List.mem_tails, he, List.append_assoc]
    exact List.suffix_append a (s.data ++ b)
  · rw [List.isPrefixOf_iff_prefix]
    exact List.prefix_append s.data b

/-- The contents-absent message always names the cache. -/
theorem contentsAbsent_msg (n : String) :
    strContains (errMsg (.contentsAbsent n)) n = true := by
  apply strContains_of_data
    ("No cache contents defined for " ++ String.singleton (Char.ofNat 39)).data
    (String.singleton (Char.ofNat 39)).data
  simp [errMsg, sq, String.data_append, List.append_assoc]

/-- The unknown-attribute message names the wrapper's class, the payload's
class and the attribute. -/
theorem unknownAttr_msg (a b c : String) :
    strContains (errMsg (.unknownAttribute a b c)) a = true ∧
    strContains (errMsg (.unknownAttribute a b c)) b = true ∧
    strContains (errMsg (.unknownAttribute a b c)) c = true := by
  refine ⟨?_, ?_, ?_⟩
  · apply strContains_of_data (String.singleton (Char.ofNat 39)).data
      (String.singleton (Char.ofNat 39) ++ " and " ++ sq b ++
        " objects have no attribute " ++ sq c).data
    simp [errMsg, sq, String.data_append, List.append_assoc]
  · apply strContains_of_data
      (sq a ++ " and " ++ String.singleton (Char.ofNat 39)).data
      (String.singleton (Char.ofNat 39) ++ " objects have no attribute " ++ sq c).data
    simp [errMsg, sq, String.data_append, List.append_assoc]
  · apply strContains_of_data
      (sq a ++ " and " ++ sq b ++ " objects have no attribute " ++
        String.singleton (Char.ofNat 39)).data
      (String.singleton (Char.ofNat 39)).data
    simp [errMsg, sq, String.data_append, List.append_assoc]

/-- Frame property through the dependent loop: if the recursive operation
never changes the registry and only appends `P`-events, so does the loop. -/
theorem foldDeps_frame (P : Ev → Prop)
    (rec : State → String → List String → List Ev → Option (State × List String × List Ev))
    (hrec : ∀ st n seen log st' seen' log', rec st n seen log = some (st', seen', log') →
      st' = st ∧ ∃ Δ, log' = log ++ Δ ∧ ∀ e ∈ Δ, P e) :
    ∀ ds st seen log st' seen' log', foldDeps rec ds st seen log = some (st', seen', log') →
      st' = st ∧ ∃ Δ, log' = log ++ Δ ∧ ∀ e ∈ Δ, P e := by
  intro ds
  induction ds with
  | nil =>
    intro st seen log st' seen' log' h
    simp only [foldDeps, Option.some.injEq, Prod.mk.injEq] at h
    refine ⟨h.1.symm, [], ?_, by simp⟩
    rw [← h.2.2, List.append_nil]
  | cons d ds ih =>
    intro st seen log st' seen' log' h
    cases d with
    | wrap m => exact ih st seen log st' seen' log' h
    | str s =>
      simp only [foldDeps] at h
      by_cases hs : s ∈ seen
      · rw [if_pos hs] at h
        exact ih st seen log st' seen' log' h
      · rw [if_neg hs] at h
        cases hr : retrieve_cache st s with
        | none =>
          rw [hr] at h
          exact ih st seen log st' seen' log' h
        | some w =>
          rw [hr] at h
          cases hrc : rec st s seen log with
          | none => rw [hrc] at h; cases h
          | some r =>
            obtain ⟨st1, seen1, log1⟩ := r
            rw [hrc] at h
            obtain ⟨he1, Δ₁, hl1, hp1⟩ := hrec st s seen log st1 seen1 log1 hrc
            obtain ⟨he2, Δ₂, hl2, hp2⟩ := ih st1 seen1 log1 st' seen' log' h
            subst he1
            refine ⟨he2, Δ₁ ++ Δ₂, ?_, ?_⟩
            · rw [hl2, hl1, List.append_assoc]
            · intro e he
              rcases List.mem_append.mp he with hh | hh
              · exact hp1 e hh
              · exact hp2 e hh

/-- Frame property of the recurse-then-act cascade: a node-local action that
never changes the registry and only appends `P`-events yields a cascade that
never changes the registry and only appends `P`-events. -/
theorem cascade_frame (P : Ev → Prop) (act : Act)
    (hact : ∀ st n log, (act st n log).1 = st ∧
      ∃ δ, (act st n log).2 = log ++ δ ∧ ∀ e ∈ δ, P e) :
    ∀ fuel st n casc seen log st' seen' log',
      specCascade act fuel st n casc seen log = some (st', seen', log') →
      st' = st ∧ ∃ Δ, log' = log ++ Δ ∧ ∀ e ∈ Δ, P e := by
  intro fuel
  induction fuel with
  | zero => intro st n casc seen log st' seen' log' h; cases h
  | succ fuel ih =>
    intro st n casc seen log st' seen' log' h
    simp only [specCascade] at h
    by_cases hn : n ∈ seen
    · rw [if_pos hn] at h
      simp only [Option.some.injEq, Prod.mk.injEq] at h
      refine ⟨h.1.symm, [], ?_, by simp⟩
      rw [← h.2.2, List.append_nil]
    · rw [if_neg hn] at h
      cases casc with
      | false =>
        simp only [Bool.false_eq_true, if_false] at h
        obtain ⟨ha1, δ, ha2, ha3⟩ := hact st n log
        simp only [Option.some.injEq, Prod.mk.injEq] at h
        refine ⟨h.1.symm.trans ha1, δ, ?_, ha3⟩
        rw [← h.2.2, ha2]
      | true =>
        simp only [if_true] at h
        cases hf : foldDeps (fun st' n s l => specCascade act fuel st' n true s l)
            (depsOf st n) st (n :: seen) log with
        | none => rw [hf] at h; cases h
        | some r =>
          obtain ⟨st2, seen2, log2⟩ := r
          rw [hf] at h
          obtain ⟨he2, Δf, hl2, hp2⟩ :=
            foldDeps_frame P _ (fun a b c d a' b' c' hh => ih a b true c d a' b' c' hh)
              (depsOf st n) st (n :: seen) log st2 seen2 log2 hf
          obtain ⟨ha1, δ, ha2, ha3⟩ := hact st2 n log2
          simp only [Option.some.injEq, Prod.mk.injEq] at h
          subst he2
          refine ⟨h.1.symm.trans ha1, Δf ++ δ, ?_, ?_⟩
          · rw [← h.2.2, ha2, hl2, List.append_assoc]
          · intro e he
            rcases List.mem_append.mp he with hh | hh
            · exact hp2 e hh
            · exact ha3 e hh

/-- The node-local delete never changes the registry and only appends its
marker and deleter-invocation events. -/
theorem deleteLocalS_frame (st : State) (n : String) (log : List Ev) :
    (deleteLocalS st n log).1 = st ∧ ∃ δ, (deleteLocalS st n log).2 = log ++ δ ∧
      ∀ e ∈ δ, (∃ m, e = Ev.act .deleteA m) ∨ ∃ m, e = Ev.deleterCall m := by
  cases hr : retrieve_cache st n with
  | none =>
    refine ⟨by simp [deleteLocalS, hr], [], by simp [deleteLocalS, hr], by simp⟩
  | some w =>
    refine ⟨by simp [deleteLocalS, hr], Ev.act .deleteA n :: deleteW w,
      by simp [deleteLocalS, hr], ?_⟩
    intro e he
    rcases List.mem_cons.mp he with he | he
    · exact Or.inl ⟨n, by rw [he]⟩
    · unfold deleteW at he
      by_cases hd : w.deleter
      · rw [if_pos hd] at he
        simp only [List.mem_singleton] at he
        exact Or.inr ⟨w.name, he⟩
      · rw [if_neg hd] at he
        cases he

/-- Top-level run of a recurse-then-act operation: completes and produces a
log whose `mk`-markers are pairwise distinct. -/
theorem top_run_count (act : Act) (mk : Ev → Option String) (hact : ActOK act mk)
    (st : State) (n : String) :
    ∃ st' seen' log', specCascade act ((keysF st).card + 1) st n true [] [] =
        some (st', seen', log') ∧
      ∀ m, (log'.filterMap mk).count m ≤ 1 := by
  obtain ⟨st', seen', log', Δ, heq, _, hlog, _, _, hm⟩ :=
    cascade_run act mk hact ((keysF st).card + 1) st n true [] []
      (Nat.lt_succ_of_le (Finset.card_le_card Finset.sdiff_subset))
  refine ⟨st', seen', log', heq, fun m => ?_⟩
  rw [hlog, List.nil_append]
  exact List.nodup_iff_count_le_one.mp hm.1 m

/-- Top-level run of an act-then-recurse operation: same conclusions. -/
theorem top_run_count_actFirst (act : Act) (mk : Ev → Option String) (hact : ActOK act mk)
    (st : State) (n : String) :
    ∃ st' seen' log', actFirstCascade act ((keysF st).card + 1) st n true [] [] =
        some (st', seen', log') ∧
      ∀ m, (log'.filterMap mk).count m ≤ 1 := by
  obtain ⟨st', seen', log', Δ, heq, _, hlog, _, _, hm⟩ :=
    actFirst_run act mk hact ((keysF st).card + 1) st n true [] []
      (Nat.lt_succ_of_le (Finset.card_le_card Finset.sdiff_subset))
  refine ⟨st', seen', log', heq, fun m => ?_⟩
  rw [hlog, List.nil_append]
  exact List.nodup_iff_count_le_one.mp hm.1 m

/-! ### Claim theorems -/

/-- C1: every cascading operation (load, save, invalidate,
delete_saved_content, invalidate_and_rebuild, load_or_build), invoked at a
top-level node of an arbitrary registry graph — cycles and diamonds
included — terminates (the size-bounded-fuel run completes with `some`) and
performs its node-local action at most once per cache name (at most one
marker of the operation's kind per name in the run's log). -/
theorem cascading_terminates_and_acts_once (k : OpKind) (st : State) (n : String) :
    ∃ st' seen' log', opTop k st n = some (st', seen', log') ∧
      ∀ m, (log'.filterMap (actName (opMark k))).count m ≤ 1 := by
  cases k with
  | load =>
    simp only [opTop, opMark]
    rw [loadC_eq_shape]
    exact top_run_count loadLocalS (actName .loadA) (ActOK_of_local loadLocalS_spec) st n
  | save =>
    simp only [opTop, opMark]
    rw [saveC_eq_shape]
    exact top_run_count saveLocalS (actName .saveA) (ActOK_of_local saveLocalS_spec) st n
  | invalidate =>
    simp only [opTop, opMark, invalidateC]
    rw [loadC_eq_shape]
    exact top_run_count loadLocalS (actName .loadA) (ActOK_of_local loadLocalS_spec) st n
  | delete =>
    simp only [opTop, opMark]
    rw [deleteC_eq_shape]
    exact top_run_count deleteLocalS (actName .deleteA) (ActOK_of_local deleteLocalS_spec) st n
  | rebuild =>
    simp only [opTop, opMark]
    rw [rebuildC_eq_shape]
    exact top_run_count_actFirst rebuildLocalS (actName .rebuildA) actOK_rebuild st n
  | lob =>
    simp only [opTop, opMark]
    rw [lobC_eq_shape]
    exact top_run_count lobLocalS (actName .lobA) actOK_lob st n

/-- C2 (counterexample): at the concrete two-node graph A → B,
`invalidate_and_rebuild`'s log has A's node-local action before B's, while
the spec's recurse-first shape with the same node-local action would put B's
first — so the claimed shared recurse-then-act shape fails for
`invalidate_and_rebuild`. -/
theorem rebuild_not_recurse_first :
    (rebuildC 3 stC2 "A" true [] []).map (fun r => r.2.2) ≠
      (specCascade rebuildLocalS 3 stC2 "A" true [] []).map (fun r => r.2.2) := by
  decide

/-- C2 (amended): load, save, invalidate, delete_saved_content and
load_or_build all equal the spec's recurse-then-act cascade shape applied to
their node-local action; invalidate_and_rebuild instead equals the
act-then-recurse shape — it performs its own node-local block (invalidate,
delete, build) first and only then recurses into dependents. -/
theorem cascade_shapes :
    (∀ fuel st n c seen log, loadC fuel st n c seen log =
      specCascade loadLocalS fuel st n c seen log) ∧
    (∀ fuel st n c seen log, saveC fuel st n c seen log =
      specCascade saveLocalS fuel st n c seen log) ∧
    (∀ fuel st n c seen log, invalidateC fuel st n c seen log =
      specCascade loadLocalS fuel st n c seen log) ∧
    (∀ fuel st n c seen log, deleteC fuel st n c seen log =
      specCascade deleteLocalS fuel st n c seen log) ∧
    (∀ fuel st n c seen log, lobC fuel st n c seen log =
      specCascade lobLocalS fuel st n c seen log) ∧
    (∀ fuel st n c seen log, rebuildC fuel st n c seen log =
      actFirstCascade rebuildLocalS fuel st n c seen log) :=
  ⟨loadC_eq_shape, saveC_eq_shape,
    fun fuel st n c seen log => loadC_eq_shape fuel st n c seen log,
    deleteC_eq_shape, lobC_eq_shape, rebuildC_eq_shape⟩

/-- C3: `_build` always ends Loaded — contents become the built value (the
empty-mapping default or the builder's result) passed through
`_post_process`, hence present — and the implicit `save()` body has run. -/
theorem build_ends_loaded (w : Wrapper) :
    (buildW w).1.contents = some (postProcessVal w (builtValue w)).1 ∧
    ((buildW w).1.contents).isSome = true ∧
    Ev.saveEnter w.name ∈ (buildW w).2 := by
  rcases hb : w.builder with _ | b <;>
    rcases hp : w.post_processor with _ | p <;>
      rcases hs : w.saver with _ | s <;>
        simp [buildW, builtValue, postProcessVal, saveW, preProcessVal, hb, hp, hs]

/-- C4 (counterexample): with a loader returning {"k": 1} and a
post-processor returning {"z": 9}, load leaves contents {"k": 1} — not the
post-processor's result — refuting the claim that contents end equal to the
post-processor applied to the loader's accepted result. -/
theorem load_ignores_post_result :
    (loadW wC4).1.contents = some [("k", 1)] ∧
    c4post [("k", 1)] = [("z", 9)] ∧
    (loadW wC4).1.contents ≠ some (c4post [("k", 1)]) := by
  refine ⟨rfl, rfl, ?_⟩
  decide

/-- C4 (amended): when the loader yields a present result that the (possibly
absent) validator accepts, contents end equal to the loader's result itself —
the post-processor is invoked on it but its return value is discarded by
`_post_process` — and the wrapper ends Loaded. -/
theorem load_keeps_accepted_result (w : Wrapper) (f : String → Option Contents)
    (c : Contents) (h1 : w.loader = some f) (h2 : f w.name = some c)
    (h3 : validatorAccepts w c) :
    (loadW w).1.contents = some c ∧ ((loadW w).1.contents).isSome = true := by
  rcases hv : w.validator with _ | v
  · rcases hp : w.post_processor with _ | p <;>
      simp [loadW, h1, h2, hv, postProcessVal, hp]
  · have hacc := h3 v hv
    rcases hp : w.post_processor with _ | p <;>
      simp [loadW, h1, h2, hv, hacc, postProcessVal, hp]

/-- Witness for the amended C4 at a concrete wrapper. -/
theorem load_keeps_accepted_result_w :
    (loadW wC4b).1.contents = some [("k", 1)] ∧
    ((loadW wC4b).1.contents).isSome = true :=
  load_keeps_accepted_result wC4b (fun _ => some [("k", 1)]) [("k", 1)] rfl rfl
    (fun v hv => by simp [wC4b, mkW] at hv)

/-- C5 (counterexample): with a configured saver that returns `None` (falsy),
`save` returns the pre-processed contents, not the saver's result — refuting
the claim that save returns the saver's result whenever a saver is
configured. -/
theorem save_falsy_saver_result :
    (saveW wC5).1 = some [("k", 1)] ∧
    c5saver wC5.name (preProcessVal wC5 wC5.contents).1 = none ∧
    (saveW wC5).1 ≠ c5saver wC5.name (preProcessVal wC5 wC5.contents).1 := by
  refine ⟨rfl, rfl, ?_⟩
  decide

/-- C5 (amended): `save` passes contents through the pre-processor; with no
saver it returns the processed contents; with a saver it invokes it with
(name, processed contents) and returns the saver's result IF that result is
truthy, otherwise the processed contents — the source's
`(self.saver and self.saver(self.name, contents)) or contents`. -/
theorem save_returns (w : Wrapper) :
    (w.saver = none → (saveW w).1 = (preProcessVal w w.contents).1) ∧
    (∀ s, w.saver = some s →
      truthy (s w.name (preProcessVal w w.contents).1) = true →
      (saveW w).1 = s w.name (preProcessVal w w.contents).1) ∧
    (∀ s, w.saver = some s →
      truthy (s w.name (preProcessVal w w.contents).1) = false →
      (saveW w).1 = (preProcessVal w w.contents).1) := by
  refine ⟨?_, ?_, ?_⟩
  · intro h
    simp [saveW, h]
  · intro s h ht
    simp [saveW, h, ht]
  · intro s h ht
    simp [saveW, h, ht]

/-- Witness for the amended C5: a truthy saver's result is returned. -/
theorem save_returns_w :
    (saveW wC5b).1 = c5saverB wC5b.name (preProcessVal wC5b wC5b.contents).1 :=
  (save_returns wC5b).2.1 c5saverB rfl rfl

/-- C6: with contents absent, item read, item write, item delete, iteration
and length all fail with the contents-absent condition, whose message names
the cache; the membership test instead returns false for every key. -/
theorem absent_contents_ops (w : Wrapper) (h : w.contents = none) :
    (∀ k, getitemW w k = .error (.contentsAbsent w.name)) ∧
    (∀ k v, setitemW w k v = .error (.contentsAbsent w.name)) ∧
    (∀ k, delitemW w k = .error (.contentsAbsent w.name)) ∧
    iterW w = .error (.contentsAbsent w.name) ∧
    lenW w = .error (.contentsAbsent w.name) ∧
    strContains (errMsg (.contentsAbsent w.name)) w.name = true ∧
    ∀ k, containsW w k = false := by
  refine ⟨fun k => ?_, fun k v => ?_, fun k => ?_, ?_, ?_, contentsAbsent_msg w.name,
    fun k => ?_⟩ <;>
    simp [getitemW, setitemW, delitemW, iterW, lenW, containsW, h]

/-- Witness for C6 at a concrete contents-less wrapper. -/
theorem absent_contents_ops_w :
    (∀ k, getitemW (mkW "alpha") k = .error (.contentsAbsent (mkW "alpha").name)) ∧
    (∀ k v, setitemW (mkW "alpha") k v = .error (.contentsAbsent (mkW "alpha").name)) ∧
    (∀ k, delitemW (mkW "alpha") k = .error (.contentsAbsent (mkW "alpha").name)) ∧
    iterW (mkW "alpha") = .error (.contentsAbsent (mkW "alpha").name) ∧
    lenW (mkW "alpha") = .error (.contentsAbsent (mkW "alpha").name) ∧
    strContains (errMsg (.contentsAbsent (mkW "alpha").name)) (mkW "alpha").name = true ∧
    ∀ k, containsW (mkW "alpha") k = false :=
  absent_contents_ops (mkW "alpha") rfl

/-- C7 (counterexample): at the wrapper named "alpha" holding a dict, the
unknown-attribute failure for "frobnicate" carries a message that does NOT
contain the cache name "alpha" — refuting the claim that the message
identifies the cache name. -/
theorem unknownAttr_msg_lacks_cache_name :
    getattrW wC7 "frobnicate" =
      .error (.unknownAttribute "CacheWrap" "dict" "frobnicate") ∧
    strContains (errMsg (.unknownAttribute "CacheWrap" "dict" "frobnicate"))
      wC7.name = false := by
  constructor
  · rfl
  · decide

/-- C7 (amended): an attribute neither the wrapper nor its contents defines
fails with the unknown-attribute condition, whose message identifies the
wrapper's class name, the contents' class name and the attribute name (but
not the cache name). -/
theorem getattr_unknown (w : Wrapper) (attr : String)
    (h1 : attr ∉ wrapperAttrNames) (h2 : attr ∉ contentsAttrNames w.contents) :
    getattrW w attr =
      .error (.unknownAttribute "CacheWrap" (contentsClsName w.contents) attr) ∧
    strContains (errMsg (.unknownAttribute "CacheWrap" (contentsClsName w.contents) attr))
      "CacheWrap" = true ∧
    strContains (errMsg (.unknownAttribute "CacheWrap" (contentsClsName w.contents) attr))
      (contentsClsName w.contents) = true ∧
    strContains (errMsg (.unknownAttribute "CacheWrap" (contentsClsName w.contents) attr))
      attr = true :=
  ⟨by simp [getattrW, h1, h2], (unknownAttr_msg _ _ _).1, (unknownAttr_msg _ _ _).2.1,
    (unknownAttr_msg _ _ _).2.2⟩

/-- Witness for the amended C7 at a concrete wrapper and attribute. -/
theorem getattr_unknown_w :
    getattrW (mkW "alpha") "zoomify" =
      .error (.unknownAttribute "CacheWrap" (contentsClsName (mkW "alpha").contents)
        "zoomify") ∧
    strContains (errMsg (.unknownAttribute "CacheWrap"
      (contentsClsName (mkW "alpha").contents) "zoomify")) "CacheWrap" = true ∧
    strContains (errMsg (.unknownAttribute "CacheWrap"
      (contentsClsName (mkW "alpha").contents) "zoomify"))
      (contentsClsName (mkW "alpha").contents) = true ∧
    strContains (errMsg (.unknownAttribute "CacheWrap"
      (contentsClsName (mkW "alpha").contents) "zoomify")) "zoomify" = true :=
  getattr_unknown (mkW "alpha") "zoomify" (by decide) (by decide)

/-- C8: `delete_saved_content` — cascading or not — leaves the whole registry
(in particular every wrapper's in-memory contents) exactly as it was; the
only appended events are its action markers and deleter invocations, the
node-local action being exactly one deleter call with the cache's name when
a deleter is configured and nothing otherwise. -/
theorem delete_saved_content_frame (fuel : Nat) (st : State) (n : String) (casc : Bool)
    (seen : List String) (log : List Ev) (st' : State) (seen' : List String)
    (log' : List Ev) (h : deleteC fuel st n casc seen log = some (st', seen', log')) :
    st' = st ∧
    (∃ Δ, log' = log ++ Δ ∧ ∀ e ∈ Δ,
      (∃ m, e = Ev.act .deleteA m) ∨ ∃ m, e = Ev.deleterCall m) ∧
    ∀ w : Wrapper, deleteW w = if w.deleter then [Ev.deleterCall w.name] else [] := by
  rw [deleteC_eq_shape] at h
  obtain ⟨h1, Δ, h2, h3⟩ :=
    cascade_frame _ deleteLocalS deleteLocalS_frame fuel st n casc seen log st' seen' log' h
  exact ⟨h1, ⟨Δ, h2, h3⟩, fun w => rfl⟩

/-- Witness for C8 at a concrete one-node registry with a deleter. -/
theorem delete_saved_content_frame_w :
    stC8 = stC8 ∧
    (∃ Δ, [Ev.act .deleteA "A", Ev.deleterCall "A"] = ([] : List Ev) ++ Δ ∧ ∀ e ∈ Δ,
      (∃ m, e = Ev.act .deleteA m) ∨ ∃ m, e = Ev.deleterCall m) ∧
    ∀ w : Wrapper, deleteW w = if w.deleter then [Ev.deleterCall w.name] else [] :=
  delete_saved_content_frame 2 stC8 "A" true [] [] stC8 ["A"]
    [Ev.act .deleteA "A", Ev.deleterCall "A"] rfl

/-- C9: `add_dependent` stores its argument raw — a wrapper-shaped argument
is added as-is, NOT converted to its name (the constructor path
`initDependents` does convert) — so the cascade's registry lookup silently
skips it: loading A visits only A even though B is registered.  Idempotence
does hold for the raw value. -/
theorem add_dependent_stores_raw :
    (add_dependent (mkW "A") (DepArg.wrap "B")).dependents = [DepArg.wrap "B"] ∧
    convertDependentToName (DepArg.wrap "B") = "B" ∧
    initDependents [DepArg.wrap "B"] = [DepArg.str "B"] ∧
    (loadC 3 stC9 "A" true [] []).map (fun r => r.2.1) = some ["A"] ∧
    add_dependent (add_dependent (mkW "A") (DepArg.wrap "B")) (DepArg.wrap "B") =
      add_dependent (mkW "A") (DepArg.wrap "B") :=
  ⟨rfl, rfl, rfl, rfl, rfl⟩

/-- C10: the node-local load discards the in-memory contents before invoking
the loader, so when the loader fails the exception propagates and the
wrapper is left Unloaded — whatever contents it held before are gone. -/
theorem load_unloaded_on_loader_failure (w : WrapperE)
    (f : String → Except String (Option Contents)) (e : String)
    (h1 : w.loader = some f) (h2 : f w.name = .error e) :
    loadWE w = (none, .error e) := by
  simp [loadWE, h1, h2]

/-- Witness for C10 at a concrete wrapper with prior contents and a failing
loader. -/
theorem load_unloaded_on_loader_failure_w : loadWE wC10 = (none, .error "io") :=
  load_unloaded_on_loader_failure wC10 c10loader "io" rfl rfl

end Cacheman
